import Mathlib

/-!
Shallow embedding of the webpack-sentry-plugin source (src/index.js).

The plugin class `SentryPlugin` is modelled by `PluginState` (its instance
fields after the constructor ran), the raw constructor argument by `Options`,
and the two lifecycle hooks by `afterEmit` (the `after-emit` handler) and
`doneHook` (the `done` handler).

JavaScript regular expressions that are only ever used through `.test` are
modelled as `String → Bool` predicates; the concrete default regexes of the
source are translated to the string predicates they denote.  JavaScript
truthiness of optional strings (`undefined`/`''` are falsy) is modelled by
`truthyStr`.  The asynchronous request chain of the `after-emit` hook is
modelled by a deterministic event trace: each network request contributes an
"issued" event at the point the source fires it, and each request that the
promise chain awaits contributes a "settled" event when its result becomes
available to the chain.  The per-artifact DELETE requests fired by
`deleteArtifacts` are never awaited by the chain (their promises are dropped
by `forEach`), so they have no settled events; the ids of DELETE requests
that are still pending at the moment the upload stage starts are recorded in
`FlowOutcome.pendingDeletes`.
-/

set_option autoImplicit false

namespace WebpackSentryPlugin

/-- JavaScript truthiness of an optional string value: `undefined` (`none`)
and the empty string are falsy. -/
def truthyStr : Option String → Bool
  | none => false
  | some s => s ≠ ""

/-- The `release` option: absent, a literal version string, or a function
from the compilation hash to a version string. -/
inductive VersionOpt where
  | vnone
  | vstr (v : String)
  | vfn (f : String → String)

/-- JavaScript truthiness of the stored `releaseVersion` field: a function is
truthy, a string is truthy iff non-empty. -/
def VersionOpt.truthy : VersionOpt → Bool
  | .vnone => false
  | .vstr v => v ≠ ""
  | .vfn _ => true

/-- The string value of a resolved version.  The request chain only reads
this after validation and resolution, at which point the field is always a
literal string; the other constructors are given a junk value. -/
def VersionOpt.strVal : VersionOpt → String
  | .vstr v => v
  | _ => ""

/-- Whether the stored version field still holds an unresolved function. -/
def VersionOpt.isFn : VersionOpt → Bool
  | .vfn _ => true
  | _ => false

/-- JSON-serializable payloads sent as a release body.  The shape
`{ version, projects }` produced by `DEFAULT_BODY_TRANSFORM` is modelled by
`versionProjects`; any other literal body is an opaque `lit`. -/
inductive JsonVal where
  | versionProjects (version : String) (projects : List String)
  | lit (s : String)
deriving DecidableEq

/-- The `releaseBody` option/field: a literal body or a function of the
resolved version and project slug list. -/
inductive BodyOpt where
  | blit (j : JsonVal)
  | bfn (f : String → List String → JsonVal)

/-- The serialized value of a resolved body.  Only read after resolution,
when the field is always a literal. -/
def BodyOpt.toVal : BodyOpt → JsonVal
  | .blit j => j
  | .bfn _ => .lit "function"

/-- Whether the stored body field still holds an unresolved function. -/
def BodyOpt.isFn : BodyOpt → Bool
  | .bfn _ => true
  | _ => false

/-- The `project` option as passed by the user: a single slug string or an
array of slugs. -/
inductive ProjectOpt where
  | pstr (s : String)
  | parr (l : List String)
deriving DecidableEq

/-- The raw options object passed to the `SentryPlugin` constructor.  The
source field names `include` and `exclude` are Lean keywords and are
rendered as `includeFilter` and `excludeFilter`. -/
structure Options where
  baseSentryURL : Option String
  organization : Option String
  organisation : Option String
  project : Option ProjectOpt
  apiKey : Option String
  releaseBody : Option BodyOpt
  release : VersionOpt
  includeFilter : Option (String → Bool)
  excludeFilter : Option (String → Bool)
  filenameTransform : Option (String → String)
  suppressErrors : Bool
  suppressConflictError : Bool
  shouldOverwrite : Bool
  deleteAfterCompile : Bool
  deleteRegex : Option (String → Bool)

/-- Instance fields of a constructed `SentryPlugin`. -/
structure PluginState where
  baseSentryURL : String
  organizationSlug : Option String
  projectSlug : Option (List String)
  apiKey : Option String
  releaseBody : BodyOpt
  releaseVersion : VersionOpt
  includeFilter : Option (String → Bool)
  excludeFilter : Option (String → Bool)
  filenameTransform : String → String
  suppressErrors : Bool
  suppressConflictError : Bool
  shouldOverwrite : Bool
  deleteAfterCompile : Bool
  deleteRegex : String → Bool

/-- `const BASE_SENTRY_URL = 'https://sentry.io/api/0'` -/
def BASE_SENTRY_URL : String := "https://sentry.io/api/0"

/-- The test of a trailing-suffix regular expression against a string,
modelled as a character-level suffix check. -/
def suffixTest (post s : String) : Bool :=
  decide (List.IsSuffix post.data s.data)

/-- `const DEFAULT_INCLUDE = /\.js$|\.map$/` as the predicate it denotes. -/
def DEFAULT_INCLUDE : String → Bool := fun s => suffixTest ".js" s || suffixTest ".map" s

/-- `const DEFAULT_TRANSFORM = filename => ~/filename` -/
def DEFAULT_TRANSFORM : String → String := fun filename => "~/" ++ filename

/-- `const DEFAULT_DELETE_REGEX = /\.map$/` as the predicate it denotes. -/
def DEFAULT_DELETE_REGEX : String → Bool := fun s => suffixTest ".map" s

/-- `const DEFAULT_BODY_TRANSFORM = (version, projects) => ({version, projects})` -/
def DEFAULT_BODY_TRANSFORM : String → List String → JsonVal :=
  fun version projects => .versionProjects version projects

/-- `const DEFAULT_OVERWRITE = false` -/
def DEFAULT_OVERWRITE : Bool := false

/-- JavaScript `a || b` on optional strings: yields `b` when `a` is falsy. -/
def jsOrStr (a b : Option String) : Option String :=
  if truthyStr a then a else b

/-- The string-to-array coercion applied to `this.projectSlug` by the
constructor: `if (typeof this.projectSlug === 'string') this.projectSlug = [this.projectSlug]`. -/
def coerceProject : Option ProjectOpt → Option (List String)
  | none => none
  | some (.pstr s) => some [s]
  | some (.parr l) => some l

/-- The console warning emitted for the deprecated base-URL form. -/
def DEPRECATION_WARNING : String :=
  "baseSentryURL with /projects suffix is deprecated"

/-- The test of `const projectsRegex = /\/projects$/` against a URL,
modelled as a character-level suffix check. -/
def projectsRegexTest (u : String) : Bool :=
  suffixTest "/projects" u

/-- `url.replace(/\/projects$/, '')`: removal of the nine-character
trailing `/projects` (only invoked by the constructor when the test holds). -/
def stripProjects (u : String) : String :=
  String.mk (u.data.take (u.data.length - 9))

/-- The constructor's handling of `options.baseSentryURL`: default when the
option is falsy, strip the deprecated suffix (with a console warning) when
present, otherwise keep the URL.  Returns the resulting field together with
the list of console warnings emitted. -/
def normalizeBaseURL (opt : Option String) : String × List String :=
  if truthyStr opt then
    let u := opt.getD ""
    if projectsRegexTest u then (stripProjects u, [DEPRECATION_WARNING])
    else (u, [])
  else (BASE_SENTRY_URL, [])

/-- `new SentryPlugin(options)`: the constructor.  Returns the instance
state and the console warnings emitted during construction. -/
def mkPlugin (options : Options) : PluginState × List String :=
  let b := normalizeBaseURL options.baseSentryURL
  (⟨b.1,
    jsOrStr options.organization options.organisation,
    coerceProject options.project,
    options.apiKey,
    options.releaseBody.getD (.bfn DEFAULT_BODY_TRANSFORM),
    options.release,
    some (options.includeFilter.getD DEFAULT_INCLUDE),
    options.excludeFilter,
    options.filenameTransform.getD DEFAULT_TRANSFORM,
    options.suppressErrors,
    options.suppressConflictError,
    options.shouldOverwrite || DEFAULT_OVERWRITE,
    options.deleteAfterCompile,
    options.deleteRegex.getD DEFAULT_DELETE_REGEX⟩,
   b.2)

/-- A JavaScript error value as the error handler sees it: its string
conversion and its optional `statusCode` field. -/
structure JsError where
  str : String
  statusCode : Option Nat
deriving DecidableEq

/-- `ensureRequiredOptions`: returns the first missing-field error in the
fixed order organization, project, api key, release version, or `none`. -/
def ensureRequiredOptions (s : PluginState) : Option JsError :=
  if !truthyStr s.organizationSlug then some ⟨"Error: Must provide organization", none⟩
  else if s.projectSlug.isNone then some ⟨"Error: Must provide project", none⟩
  else if !truthyStr s.apiKey then some ⟨"Error: Must provide api key", none⟩
  else if !s.releaseVersion.truthy then some ⟨"Error: Must provide release version", none⟩
  else none

/-- One entry of `compilation.assets`: the logical asset name and the
on-disk path stored in its `existsAt` field. -/
structure Asset where
  name : String
  existsAt : String
deriving DecidableEq

/-- A `{ name, path }` pair selected for upload by `getFiles`. -/
structure FileEntry where
  name : String
  path : String
deriving DecidableEq

/-- `isIncludeOrExclude(filename)`. -/
def isIncludeOrExclude (s : PluginState) (filename : String) : Bool :=
  let isIncluded := match s.includeFilter with
    | some p => p filename
    | none => true
  let isExcluded := match s.excludeFilter with
    | some p => p filename
    | none => false
  isIncluded && !isExcluded

/-- `getFiles(compilation)`: map each asset name to a `{name, path}` pair or
`null`, then drop the `null`s (`.map(...).filter(i => i)`). -/
def getFiles (s : PluginState) (assets : List Asset) : List FileEntry :=
  (assets.map (fun a =>
    if isIncludeOrExclude s a.name then some (⟨a.name, a.existsAt⟩ : FileEntry)
    else none)).filterMap id

/-- The `warnings` and `errors` collectors of a compilation object. -/
structure Collectors where
  warnings : List String
  errors : List String
deriving DecidableEq

/-- `handleErrors(err, compilation, cb)`: push a tagged message onto the
warnings collector when a suppression applies, otherwise onto the errors
collector, then invoke the callback.  Returns the updated collectors and
whether the callback was invoked. -/
def handleErrors (s : PluginState) (err : JsError) (c : Collectors) :
    Collectors × Bool :=
  let errorMsg := "Sentry Plugin: " ++ err.str
  if s.suppressErrors || (s.suppressConflictError && err.statusCode == some 409) then
    (⟨c.warnings ++ [errorMsg], c.errors⟩, true)
  else
    (⟨c.warnings, c.errors ++ [errorMsg]⟩, true)

/-- `${this.baseSentryURL}/organizations/${this.organizationSlug}/releases`.
Only invoked after validation, so the slug is present. -/
def sentryReleaseUrl (s : PluginState) : String :=
  s.baseSentryURL ++ "/organizations/" ++ s.organizationSlug.getD "undefined" ++ "/releases"

/-- One artifact object of a decoded artifact-listing response body; only its
optional `id` field matters to the source. -/
structure Artifact where
  id : Option String
deriving DecidableEq

/-- The body of an artifact-listing response, as `JSON.parse` sees it:
either it decodes to an array of artifact objects or parsing throws. -/
inductive ListResp where
  | parsed (artifacts : List Artifact)
  | invalid (raw : String)
deriving DecidableEq

/-- Remote responses consumed by one `after-emit` invocation: the settled
results of the create-release POST, the artifact-listing GET, and of each
per-file upload POST (keyed by the file name passed to `uploadFile`). -/
structure ApiOracle where
  createResult : Except JsError Unit
  listResult : Except JsError ListResp
  uploadResult : String → Except JsError Unit

/-- Events of the deterministic execution trace of one `after-emit`
invocation.  An `Issued` event marks the point at which the source fires a
request; a `Settled` event marks the point at which the chain's `.then`
continuation receives the request's result.  The per-artifact DELETE
requests are never awaited by the chain, so they have no settled events. -/
inductive Event where
  | resolveVersion (hash : String)
  | resolveBody (version : String) (projects : List String)
  | createIssued (url : String) (body : JsonVal)
  | createSettled (ok : Bool)
  | listIssued (url : String)
  | listSettled (ok : Bool)
  | deleteIssued (url : String) (id : String)
  | uploadIssued (url : String) (name : String) (path : String)
  | uploadsSettled (ok : Bool)
deriving DecidableEq

/-- Whether an event is a per-artifact DELETE request. -/
def Event.isDelete : Event → Bool
  | .deleteIssued _ _ => true
  | _ => false

/-- Whether an event is an application of a function-valued `release` option. -/
def Event.isResolveVersion : Event → Bool
  | .resolveVersion _ => true
  | _ => false

/-- Whether an event is an application of a function-valued `releaseBody` option. -/
def Event.isResolveBody : Event → Bool
  | .resolveBody _ _ => true
  | _ => false

/-- Whether an event is the create-release POST request. -/
def Event.isCreate : Event → Bool
  | .createIssued _ _ => true
  | _ => false

/-- The observable outcome of one `after-emit` invocation: the compilation's
collectors after any error report, whether the completion callback ran, and,
when the upload stage started, the ids of the DELETE requests that were
issued but still pending (never awaited) at that moment (`none` when the
chain failed before the upload stage started). -/
structure FlowOutcome where
  collectors : Collectors
  cbInvoked : Bool
  pendingDeletes : Option (List String)
deriving DecidableEq

/-- The ids the `deleteArtifacts` loop acts on: for each listed artifact,
`const artifactID = artifact.id; if (artifactID) ...` — i.e. the artifact
carries an `id` field and its value is truthy (a non-empty string). -/
def truthyIdList (artifacts : List Artifact) : List String :=
  artifacts.filterMap (fun a =>
    match a.id with
    | some i => if i ≠ "" then some i else none
    | none => none)

/-- `deleteArtifacts(response)`: under `shouldOverwrite`, `JSON.parse` the
response (throwing on invalid JSON) and fire one DELETE per truthy-id
artifact; otherwise do nothing.  Returns the issued DELETE events together
with the ids of the fired (and unawaited) requests. -/
def deleteArtifacts (s : PluginState) (relUrl : String) (response : ListResp) :
    Except JsError (List Event × List String) :=
  if s.shouldOverwrite then
    match response with
    | .invalid raw => .error ⟨"SyntaxError: Unexpected token in JSON: " ++ raw, none⟩
    | .parsed artifacts =>
        let ids := truthyIdList artifacts
        .ok (ids.map (fun id =>
          Event.deleteIssued
            (relUrl ++ "/" ++ s.releaseVersion.strVal ++ "/files/" ++ id ++ "/") id), ids)
  else .ok ([], [])

/-- The upload POST events fired by `uploadFiles`: one request per selected
file, to the files URL of the release, carrying the transformed file name. -/
def uploadEvents (s : PluginState) (files : List FileEntry) : List Event :=
  files.map (fun f =>
    Event.uploadIssued (sentryReleaseUrl s ++ "/" ++ s.releaseVersion.strVal ++ "/files/")
      (s.filenameTransform f.name) f.path)

/-- The settled result of `Promise.all` over the upload requests: the first
rejection in list order, or success when every request succeeded. -/
def uploadAll (o : ApiOracle) (files : List FileEntry) : Except JsError Unit :=
  match files.findSome? (fun f =>
    match o.uploadResult f.name with
    | .error e => some e
    | .ok _ => none) with
  | some e => .error e
  | none => .ok ()

/-- The outcome of a chain failure routed through `handleErrors`. -/
def failOutcome (s : PluginState) (e : JsError) (init : Collectors) : FlowOutcome :=
  ⟨(handleErrors s e init).1, (handleErrors s e init).2, none⟩

/-- The promise chain of the `after-emit` hook from `createRelease()`
onward, run against the given responses:
`createRelease().then(getReleaseArtifacts).then(deleteArtifacts).then(uploadFiles).then(cb).catch(handleErrors)`.
`s` is the instance state after version/body resolution. -/
def runChain (s : PluginState) (files : List FileEntry) (init : Collectors)
    (o : ApiOracle) : List Event × FlowOutcome :=
  let relUrl := sentryReleaseUrl s
  let v := s.releaseVersion.strVal
  let ci := Event.createIssued (relUrl ++ "/") s.releaseBody.toVal
  let li := Event.listIssued (relUrl ++ "/" ++ v ++ "/files/")
  match o.createResult with
  | .error e => ([ci, .createSettled false], failOutcome s e init)
  | .ok _ =>
    match o.listResult with
    | .error e => ([ci, .createSettled true, li, .listSettled false], failOutcome s e init)
    | .ok resp =>
      match deleteArtifacts s relUrl resp with
      | .error e => ([ci, .createSettled true, li, .listSettled true], failOutcome s e init)
      | .ok p =>
        let upEvs := uploadEvents s files
        match uploadAll o files with
        | .error e =>
            (ci :: .createSettled true :: li :: .listSettled true ::
               (p.1 ++ upEvs ++ [Event.uploadsSettled false]),
             ⟨(handleErrors s e init).1, true, some p.2⟩)
        | .ok _ =>
            (ci :: .createSettled true :: li :: .listSettled true ::
               (p.1 ++ upEvs ++ [Event.uploadsSettled true]),
             ⟨init, true, some p.2⟩)

/-- The input of one `after-emit` invocation: the compilation's assets, its
build hash and its warning/error collectors. -/
structure Compilation where
  assets : List Asset
  hash : String
  collectors : Collectors

/-- The value the stored version field holds after the resolution step:
a function-valued `release` option is applied to the compilation hash, any
other value is left unchanged. -/
def resolvedVersion (s : PluginState) (hash : String) : VersionOpt :=
  match s.releaseVersion with
  | .vfn f => .vstr (f hash)
  | v => v

/-- The resolution event emitted when the `release` option is a function. -/
def versionEvents (s : PluginState) (hash : String) : List Event :=
  match s.releaseVersion with
  | .vfn _ => [.resolveVersion hash]
  | _ => []

/-- The value the stored body field holds after the resolution step:
a function-valued `releaseBody` is applied to `(this.releaseVersion,
this.projectSlug)`, any literal is left unchanged. -/
def resolvedBody (s : PluginState) : BodyOpt :=
  match s.releaseBody with
  | .bfn g => .blit (g s.releaseVersion.strVal (s.projectSlug.getD []))
  | b => b

/-- The resolution event emitted when the `releaseBody` option is a function. -/
def bodyEvents (s : PluginState) : List Event :=
  match s.releaseBody with
  | .bfn _ => [.resolveBody s.releaseVersion.strVal (s.projectSlug.getD [])]
  | _ => []

/-- The instance state after the two in-place resolution assignments of the
`after-emit` handler ran. -/
def postResolveState (s : PluginState) (hash : String) : PluginState :=
  { { s with releaseVersion := resolvedVersion s hash } with
    releaseBody := resolvedBody { s with releaseVersion := resolvedVersion s hash } }

/-- The `after-emit` handler: validate, select files, resolve version and
body (overwriting the instance fields), then run the request chain.
Returns the event trace, the instance state after the invocation, and the
observable outcome. -/
def afterEmit (s : PluginState) (comp : Compilation) (o : ApiOracle) :
    List Event × PluginState × FlowOutcome :=
  match ensureRequiredOptions s with
  | some e =>
      (([] : List Event), s,
       ⟨(handleErrors s e comp.collectors).1, (handleErrors s e comp.collectors).2, none⟩)
  | none =>
      let files := getFiles s comp.assets
      let s2 := postResolveState s comp.hash
      let r := runChain s2 files comp.collectors o
      (versionEvents s comp.hash ++
         bodyEvents { s with releaseVersion := resolvedVersion s comp.hash } ++ r.1,
       s2, r.2)

/-- `fs.unlinkSync(path)` over a filesystem modelled as the list of the
paths of its (distinct) existing files: remove the file, or throw when it
does not exist. -/
def unlinkSync (fsys : List String) (p : String) : Except String (List String) :=
  if p ∈ fsys then .ok (fsys.erase p) else .error ("ENOENT: " ++ p)

/-- Sequential unlinking of a list of paths; an exception aborts the rest,
as an uncaught throw inside `forEach` does. -/
def removePaths : List String → List String → Except String (List String)
  | fsys, [] => .ok fsys
  | fsys, p :: ps =>
      match unlinkSync fsys p with
      | .error e => .error e
      | .ok fs2 => removePaths fs2 ps

/-- `deleteFiles(stats)`: filter the asset names by `deleteRegex` and
`fs.unlinkSync` the `existsAt` path of each match. -/
def deleteFiles (s : PluginState) (assets : List Asset) (fsys : List String) :
    Except String (List String) :=
  removePaths fsys ((assets.filter (fun a => s.deleteRegex a.name)).map Asset.existsAt)

/-- The `done` handler: run `deleteFiles` when `deleteAfterCompile` is set. -/
def doneHook (s : PluginState) (assets : List Asset) (fsys : List String) :
    Except String (List String) :=
  if s.deleteAfterCompile then deleteFiles s assets fsys else .ok fsys

/-! ### Helper lemmas -/

theorem ensure_none_iff (s : PluginState) :
    ensureRequiredOptions s = none ↔
      truthyStr s.organizationSlug = true ∧ s.projectSlug ≠ none ∧
        truthyStr s.apiKey = true ∧ s.releaseVersion.truthy = true := by
  unfold ensureRequiredOptions
  split_ifs <;> simp_all [Option.isNone_iff_eq_none]

theorem sublist_prepend {α : Type} {l m : List α} (A : List α) (h : List.Sublist l m) :
    List.Sublist l (A ++ m) :=
  h.trans (List.sublist_append_right A m)

theorem sublist_extend {α : Type} {l m : List α} (D : List α) (h : List.Sublist l m) :
    List.Sublist l (m ++ D) :=
  h.trans (List.sublist_append_left m D)

theorem pair_sublist_of_mem {α : Type} {x y : α} {B C : List α}
    (hx : x ∈ B) (hy : y ∈ C) : List.Sublist [x, y] (B ++ C) := by
  have hx2 : List.Sublist [x] B := List.singleton_sublist.mpr hx
  have hy2 : List.Sublist [y] C := List.singleton_sublist.mpr hy
  simpa using hx2.append hy2

theorem pair_sublist_head {α : Type} {x y : α} {B : List α} (hy : y ∈ B) :
    List.Sublist [x, y] (x :: B) :=
  (List.singleton_sublist.mpr hy).cons₂ x

theorem deleteArtifacts_ok {s : PluginState} {r : String} {resp : ListResp}
    {p : List Event × List String} (h : deleteArtifacts s r resp = .ok p) :
    p.1 = p.2.map (fun id =>
      Event.deleteIssued (r ++ "/" ++ s.releaseVersion.strVal ++ "/files/" ++ id ++ "/") id) := by
  unfold deleteArtifacts at h
  split_ifs at h
  · cases resp with
    | invalid raw => simp at h
    | parsed artifacts =>
        simp only [Except.ok.injEq] at h
        subst h
        rfl
  · simp only [Except.ok.injEq] at h
    subst h
    rfl

theorem deleteArtifacts_not_overwrite {s : PluginState} {r : String} {resp : ListResp}
    (h : s.shouldOverwrite = false) : deleteArtifacts s r resp = .ok ([], []) := by
  simp [deleteArtifacts, h]

theorem deleteArtifacts_overwrite_parsed {s : PluginState} {r : String}
    {artifacts : List Artifact} (h : s.shouldOverwrite = true) :
    deleteArtifacts s r (.parsed artifacts) =
      .ok ((truthyIdList artifacts).map (fun id =>
        Event.deleteIssued (r ++ "/" ++ s.releaseVersion.strVal ++ "/files/" ++ id ++ "/") id),
        truthyIdList artifacts) := by
  simp [deleteArtifacts, h]

theorem mem_uploadEvents {s : PluginState} {files : List FileEntry} {e : Event} :
    e ∈ uploadEvents s files ↔ ∃ f ∈ files,
      e = Event.uploadIssued (sentryReleaseUrl s ++ "/" ++ s.releaseVersion.strVal ++ "/files/")
        (s.filenameTransform f.name) f.path := by
  simp only [uploadEvents, List.mem_map]
  constructor
  · rintro ⟨f, hf, rfl⟩; exact ⟨f, hf, rfl⟩
  · rintro ⟨f, hf, rfl⟩; exact ⟨f, hf, rfl⟩

theorem runChain_no_delete (s : PluginState) (files : List FileEntry)
    (init : Collectors) (o : ApiOracle) (h : s.shouldOverwrite = false) :
    ∀ u id, Event.deleteIssued u id ∉ (runChain s files init o).1 := by
  intro u id
  cases hc : o.createResult with
  | error e => simp [runChain, hc]
  | ok uu =>
    cases hl : o.listResult with
    | error e => simp [runChain, hc, hl]
    | ok resp =>
      cases hu : uploadAll o files <;>
        simp [runChain, hc, hl, deleteArtifacts_not_overwrite h, hu, uploadEvents,
          List.mem_map]

theorem runChain_filter_delete (s : PluginState) (files : List FileEntry)
    (init : Collectors) (o : ApiOracle) (arts : List Artifact)
    (h : s.shouldOverwrite = true) (hc : o.createResult = .ok ())
    (hl : o.listResult = .ok (.parsed arts)) :
    (runChain s files init o).1.filter Event.isDelete =
      (truthyIdList arts).map (fun id =>
        Event.deleteIssued
          (sentryReleaseUrl s ++ "/" ++ s.releaseVersion.strVal ++ "/files/" ++ id ++ "/") id) := by
  have hfu : (uploadEvents s files).filter Event.isDelete = [] := by
    refine List.filter_eq_nil_iff.mpr ?_
    intro e he
    rcases mem_uploadEvents.mp he with ⟨f, _, rfl⟩
    simp [Event.isDelete]
  have hfd : ((truthyIdList arts).map (fun id =>
      Event.deleteIssued
        (sentryReleaseUrl s ++ "/" ++ s.releaseVersion.strVal ++ "/files/" ++ id ++ "/") id)).filter
        Event.isDelete =
      (truthyIdList arts).map (fun id =>
        Event.deleteIssued
          (sentryReleaseUrl s ++ "/" ++ s.releaseVersion.strVal ++ "/files/" ++ id ++ "/") id) := by
    refine List.filter_eq_self.mpr ?_
    intro e he
    rcases List.mem_map.mp he with ⟨i, _, rfl⟩
    simp [Event.isDelete]
  cases hu : uploadAll o files <;>
    simp [runChain, hc, hl, deleteArtifacts_overwrite_parsed h, hu, Event.isDelete,
      List.filter_append, hfu, hfd]

theorem runChain_listIssued_eq (s : PluginState) (files : List FileEntry)
    (init : Collectors) (o : ApiOracle) (u : String)
    (h : Event.listIssued u ∈ (runChain s files init o).1) :
    u = sentryReleaseUrl s ++ "/" ++ s.releaseVersion.strVal ++ "/files/" := by
  cases hc : o.createResult with
  | error e => simp [runChain, hc] at h
  | ok uu =>
    cases hl : o.listResult with
    | error e =>
        simp [runChain, hc, hl] at h
        exact h
    | ok resp =>
      cases hd : deleteArtifacts s (sentryReleaseUrl s) resp with
      | error e =>
          simp [runChain, hc, hl, hd] at h
          exact h
      | ok p =>
        have hp := deleteArtifacts_ok hd
        cases hu : uploadAll o files <;>
          · simp [runChain, hc, hl, hd, hu, hp, mem_uploadEvents, List.mem_map] at h
            tauto

theorem runChain_listIssued_mem (s : PluginState) (files : List FileEntry)
    (init : Collectors) (o : ApiOracle) (hc : o.createResult = .ok ()) :
    Event.listIssued (sentryReleaseUrl s ++ "/" ++ s.releaseVersion.strVal ++ "/files/") ∈
      (runChain s files init o).1 := by
  cases hl : o.listResult with
  | error e => simp [runChain, hc, hl]
  | ok resp =>
    cases hd : deleteArtifacts s (sentryReleaseUrl s) resp with
    | error e => simp [runChain, hc, hl, hd]
    | ok p => cases hu : uploadAll o files <;> simp [runChain, hc, hl, hd, hu]

theorem runChain_uploadIssued_eq (s : PluginState) (files : List FileEntry)
    (init : Collectors) (o : ApiOracle) (u n pa : String)
    (h : Event.uploadIssued u n pa ∈ (runChain s files init o).1) :
    u = sentryReleaseUrl s ++ "/" ++ s.releaseVersion.strVal ++ "/files/" ∧
      ∃ f ∈ files, n = s.filenameTransform f.name ∧ pa = f.path := by
  cases hc : o.createResult with
  | error e => simp [runChain, hc] at h
  | ok uu =>
    cases hl : o.listResult with
    | error e => simp [runChain, hc, hl] at h
    | ok resp =>
      cases hd : deleteArtifacts s (sentryReleaseUrl s) resp with
      | error e => simp [runChain, hc, hl, hd] at h
      | ok p =>
        have hp := deleteArtifacts_ok hd
        cases hu : uploadAll o files <;>
          · simp [runChain, hc, hl, hd, hu, hp, List.mem_map, mem_uploadEvents] at h
            rcases h with ⟨f, hf, h1, h2, h3⟩
            exact ⟨h1, f, hf, h2, h3⟩

theorem runChain_deleteIssued_eq (s : PluginState) (files : List FileEntry)
    (init : Collectors) (o : ApiOracle) (u i : String)
    (h : Event.deleteIssued u i ∈ (runChain s files init o).1) :
    u = sentryReleaseUrl s ++ "/" ++ s.releaseVersion.strVal ++ "/files/" ++ i ++ "/" := by
  cases hc : o.createResult with
  | error e => simp [runChain, hc] at h
  | ok uu =>
    cases hl : o.listResult with
    | error e => simp [runChain, hc, hl] at h
    | ok resp =>
      cases hd : deleteArtifacts s (sentryReleaseUrl s) resp with
      | error e => simp [runChain, hc, hl, hd] at h
      | ok p =>
        have hp := deleteArtifacts_ok hd
        cases hu : uploadAll o files <;>
          · simp [runChain, hc, hl, hd, hu, hp, List.mem_map, mem_uploadEvents] at h
            obtain ⟨i2, hrest⟩ := h
            simp_all

theorem runChain_filter_create (s : PluginState) (files : List FileEntry)
    (init : Collectors) (o : ApiOracle) :
    (runChain s files init o).1.filter Event.isCreate =
      [Event.createIssued (sentryReleaseUrl s ++ "/") s.releaseBody.toVal] := by
  have hfu : (uploadEvents s files).filter Event.isCreate = [] := by
    refine List.filter_eq_nil_iff.mpr ?_
    intro e he
    rcases mem_uploadEvents.mp he with ⟨f, _, rfl⟩
    simp [Event.isCreate]
  cases hc : o.createResult with
  | error e => simp [runChain, hc, Event.isCreate]
  | ok uu =>
    cases hl : o.listResult with
    | error e => simp [runChain, hc, hl, Event.isCreate]
    | ok resp =>
      cases hd : deleteArtifacts s (sentryReleaseUrl s) resp with
      | error e => simp [runChain, hc, hl, hd, Event.isCreate]
      | ok p =>
        have hp := deleteArtifacts_ok hd
        have hfd : (p.1).filter Event.isCreate = [] := by
          refine List.filter_eq_nil_iff.mpr ?_
          intro e he
          rw [hp] at he
          rcases List.mem_map.mp he with ⟨i, _, rfl⟩
          simp [Event.isCreate]
        cases hu : uploadAll o files <;>
          simp [runChain, hc, hl, hd, hu, Event.isCreate, List.filter_append, hfu, hfd]

theorem runChain_no_resolve (s : PluginState) (files : List FileEntry)
    (init : Collectors) (o : ApiOracle) :
    (runChain s files init o).1.filter Event.isResolveVersion = [] ∧
      (runChain s files init o).1.filter Event.isResolveBody = [] := by
  have hfu1 : (uploadEvents s files).filter Event.isResolveVersion = [] := by
    refine List.filter_eq_nil_iff.mpr ?_
    intro e he
    rcases mem_uploadEvents.mp he with ⟨f, _, rfl⟩
    simp [Event.isResolveVersion]
  have hfu2 : (uploadEvents s files).filter Event.isResolveBody = [] := by
    refine List.filter_eq_nil_iff.mpr ?_
    intro e he
    rcases mem_uploadEvents.mp he with ⟨f, _, rfl⟩
    simp [Event.isResolveBody]
  cases hc : o.createResult with
  | error e => simp [runChain, hc, Event.isResolveVersion, Event.isResolveBody]
  | ok uu =>
    cases hl : o.listResult with
    | error e => simp [runChain, hc, hl, Event.isResolveVersion, Event.isResolveBody]
    | ok resp =>
      cases hd : deleteArtifacts s (sentryReleaseUrl s) resp with
      | error e => simp [runChain, hc, hl, hd, Event.isResolveVersion, Event.isResolveBody]
      | ok p =>
        have hp := deleteArtifacts_ok hd
        have hfd1 : (p.1).filter Event.isResolveVersion = [] := by
          refine List.filter_eq_nil_iff.mpr ?_
          intro e he
          rw [hp] at he
          rcases List.mem_map.mp he with ⟨i, _, rfl⟩
          simp [Event.isResolveVersion]
        have hfd2 : (p.1).filter Event.isResolveBody = [] := by
          refine List.filter_eq_nil_iff.mpr ?_
          intro e he
          rw [hp] at he
          rcases List.mem_map.mp he with ⟨i, _, rfl⟩
          simp [Event.isResolveBody]
        cases hu : uploadAll o files <;>
          simp [runChain, hc, hl, hd, hu, Event.isResolveVersion, Event.isResolveBody,
            List.filter_append, hfu1, hfu2, hfd1, hfd2]

theorem pair_sublist_cons2 {α : Type} (c x y : α) (rest : List α) :
    List.Sublist [x, y] (c :: x :: y :: rest) :=
  ((((List.nil_sublist rest).cons₂ y).cons₂ x)).cons c

theorem runChain_order_create_list (s : PluginState) (files : List FileEntry)
    (init : Collectors) (o : ApiOracle) (u : String)
    (h : Event.listIssued u ∈ (runChain s files init o).1) :
    List.Sublist [Event.createSettled true, Event.listIssued u] (runChain s files init o).1 := by
  cases hc : o.createResult with
  | error e => simp [runChain, hc] at h
  | ok uu =>
    cases hl : o.listResult with
    | error e =>
        have htr : (runChain s files init o).1 =
            [Event.createIssued (sentryReleaseUrl s ++ "/") s.releaseBody.toVal,
             .createSettled true,
             .listIssued (sentryReleaseUrl s ++ "/" ++ s.releaseVersion.strVal ++ "/files/"),
             .listSettled false] := by
          simp [runChain, hc, hl]
        rw [htr] at h ⊢
        simp at h
        rw [h]
        exact pair_sublist_cons2 _ _ _ _
    | ok resp =>
      cases hd : deleteArtifacts s (sentryReleaseUrl s) resp with
      | error e =>
          have htr : (runChain s files init o).1 =
              [Event.createIssued (sentryReleaseUrl s ++ "/") s.releaseBody.toVal,
               .createSettled true,
               .listIssued (sentryReleaseUrl s ++ "/" ++ s.releaseVersion.strVal ++ "/files/"),
               .listSettled true] := by
            simp [runChain, hc, hl, hd]
          rw [htr] at h ⊢
          simp at h
          rw [h]
          exact pair_sublist_cons2 _ _ _ _
      | ok p =>
        have hp := deleteArtifacts_ok hd
        cases hu : uploadAll o files with
        | error e =>
            have htr : (runChain s files init o).1 =
                Event.createIssued (sentryReleaseUrl s ++ "/") s.releaseBody.toVal ::
                  .createSettled true ::
                  .listIssued (sentryReleaseUrl s ++ "/" ++ s.releaseVersion.strVal ++ "/files/") ::
                  .listSettled true ::
                  (p.1 ++ uploadEvents s files ++ [.uploadsSettled false]) := by
              simp [runChain, hc, hl, hd, hu]
            rw [htr] at h ⊢
            simp [hp, mem_uploadEvents, List.mem_map] at h
            rw [h]
            exact pair_sublist_cons2 _ _ _ _
        | ok uv =>
            have htr : (runChain s files init o).1 =
                Event.createIssued (sentryReleaseUrl s ++ "/") s.releaseBody.toVal ::
                  .createSettled true ::
                  .listIssued (sentryReleaseUrl s ++ "/" ++ s.releaseVersion.strVal ++ "/files/") ::
                  .listSettled true ::
                  (p.1 ++ uploadEvents s files ++ [.uploadsSettled true]) := by
              simp [runChain, hc, hl, hd, hu]
            rw [htr] at h ⊢
            simp [hp, mem_uploadEvents, List.mem_map] at h
            rw [h]
            exact pair_sublist_cons2 _ _ _ _

theorem runChain_trace_success (s : PluginState) (files : List FileEntry)
    (init : Collectors) (o : ApiOracle) (resp : ListResp) (p : List Event × List String)
    (b : Bool)
    (hc : o.createResult = .ok ()) (hl : o.listResult = .ok resp)
    (hd : deleteArtifacts s (sentryReleaseUrl s) resp = .ok p)
    (hb : b = (uploadAll o files).isOk) :
    (runChain s files init o).1 =
      Event.createIssued (sentryReleaseUrl s ++ "/") s.releaseBody.toVal ::
        .createSettled true ::
        .listIssued (sentryReleaseUrl s ++ "/" ++ s.releaseVersion.strVal ++ "/files/") ::
        .listSettled true ::
        (p.1 ++ uploadEvents s files ++ [.uploadsSettled b]) := by
  cases hu : uploadAll o files <;>
    simp [runChain, hc, hl, hd, hu, hb, Except.isOk, Except.toBool]

theorem runChain_order_list_delete (s : PluginState) (files : List FileEntry)
    (init : Collectors) (o : ApiOracle) (u i : String)
    (h : Event.deleteIssued u i ∈ (runChain s files init o).1) :
    List.Sublist [Event.listSettled true, Event.deleteIssued u i] (runChain s files init o).1 := by
  cases hc : o.createResult with
  | error e => simp [runChain, hc] at h
  | ok uu =>
    cases hl : o.listResult with
    | error e => simp [runChain, hc, hl] at h
    | ok resp =>
      cases hd : deleteArtifacts s (sentryReleaseUrl s) resp with
      | error e => simp [runChain, hc, hl, hd] at h
      | ok p =>
        have htr := runChain_trace_success s files init o resp p
          (uploadAll o files).isOk hc hl hd rfl
        rw [htr] at h ⊢
        simp only [List.mem_cons] at h
        rcases h with h | h | h | h | h
        · simp at h
        · simp at h
        · simp at h
        · simp at h
        · exact (((pair_sublist_head h).cons _).cons _).cons _

theorem runChain_order_list_upload (s : PluginState) (files : List FileEntry)
    (init : Collectors) (o : ApiOracle) (u n pa : String)
    (h : Event.uploadIssued u n pa ∈ (runChain s files init o).1) :
    List.Sublist [Event.listSettled true, Event.uploadIssued u n pa]
      (runChain s files init o).1 := by
  cases hc : o.createResult with
  | error e => simp [runChain, hc] at h
  | ok uu =>
    cases hl : o.listResult with
    | error e => simp [runChain, hc, hl] at h
    | ok resp =>
      cases hd : deleteArtifacts s (sentryReleaseUrl s) resp with
      | error e => simp [runChain, hc, hl, hd] at h
      | ok p =>
        have htr := runChain_trace_success s files init o resp p
          (uploadAll o files).isOk hc hl hd rfl
        rw [htr] at h ⊢
        simp only [List.mem_cons] at h
        rcases h with h | h | h | h | h
        · simp at h
        · simp at h
        · simp at h
        · simp at h
        · exact (((pair_sublist_head h).cons _).cons _).cons _

theorem runChain_order_delete_upload (s : PluginState) (files : List FileEntry)
    (init : Collectors) (o : ApiOracle) (u i u2 n pa : String)
    (h1 : Event.deleteIssued u i ∈ (runChain s files init o).1)
    (h2 : Event.uploadIssued u2 n pa ∈ (runChain s files init o).1) :
    List.Sublist [Event.deleteIssued u i, Event.uploadIssued u2 n pa]
      (runChain s files init o).1 := by
  cases hc : o.createResult with
  | error e => simp [runChain, hc] at h1
  | ok uu =>
    cases hl : o.listResult with
    | error e => simp [runChain, hc, hl] at h1
    | ok resp =>
      cases hd : deleteArtifacts s (sentryReleaseUrl s) resp with
      | error e => simp [runChain, hc, hl, hd] at h1
      | ok p =>
        have hp := deleteArtifacts_ok hd
        have htr := runChain_trace_success s files init o resp p
          (uploadAll o files).isOk hc hl hd rfl
        rw [htr] at h1 h2 ⊢
        simp only [List.mem_cons] at h1 h2
        rcases h1 with h1 | h1 | h1 | h1 | h1
        · simp at h1
        · simp at h1
        · simp at h1
        · simp at h1
        · rcases h2 with h2 | h2 | h2 | h2 | h2
          · simp at h2
          · simp at h2
          · simp at h2
          · simp at h2
          · have hd1 : Event.deleteIssued u i ∈ p.1 := by
              rcases (List.mem_append.mp h1) with hx | hx
              · rcases (List.mem_append.mp hx) with hy | hy
                · exact hy
                · rcases mem_uploadEvents.mp hy with ⟨f, _, hf⟩
                  simp at hf
              · simp at hx
            have hu2 : Event.uploadIssued u2 n pa ∈ uploadEvents s files := by
              rcases (List.mem_append.mp h2) with hx | hx
              · rcases (List.mem_append.mp hx) with hy | hy
                · rw [hp] at hy
                  rcases List.mem_map.mp hy with ⟨i2, _, hi⟩
                  simp at hi
                · exact hy
              · simp at hx
            have base := sublist_extend [Event.uploadsSettled (uploadAll o files).isOk]
              (pair_sublist_of_mem hd1 hu2)
            exact (((base.cons _).cons _).cons _).cons _

theorem runChain_pending (s : PluginState) (files : List FileEntry)
    (init : Collectors) (o : ApiOracle) (ids : List String)
    (h : (runChain s files init o).2.pendingDeletes = some ids) :
    ∀ i, i ∈ ids ↔ ∃ u, Event.deleteIssued u i ∈ (runChain s files init o).1 := by
  intro i
  cases hc : o.createResult with
  | error e => simp [runChain, hc, failOutcome] at h
  | ok uu =>
    cases hl : o.listResult with
    | error e => simp [runChain, hc, hl, failOutcome] at h
    | ok resp =>
      cases hd : deleteArtifacts s (sentryReleaseUrl s) resp with
      | error e => simp [runChain, hc, hl, hd, failOutcome] at h
      | ok p =>
        have hp := deleteArtifacts_ok hd
        have hids : ids = p.2 := by
          cases hu : uploadAll o files <;>
            · simp [runChain, hc, hl, hd, hu] at h
              exact h.symm
        have htr := runChain_trace_success s files init o resp p
          (uploadAll o files).isOk hc hl hd rfl
        rw [htr, hids]
        constructor
        · intro hmem
          refine ⟨sentryReleaseUrl s ++ "/" ++ s.releaseVersion.strVal ++ "/files/" ++ i ++ "/", ?_⟩
          have : Event.deleteIssued
              (sentryReleaseUrl s ++ "/" ++ s.releaseVersion.strVal ++ "/files/" ++ i ++ "/") i ∈ p.1 := by
            rw [hp]
            exact List.mem_map.mpr ⟨i, hmem, rfl⟩
          simp only [List.mem_cons]
          exact Or.inr (Or.inr (Or.inr (Or.inr
            (List.mem_append.mpr (Or.inl (List.mem_append.mpr (Or.inl this)))))))
        · rintro ⟨u, hu⟩
          simp only [List.mem_cons] at hu
          rcases hu with hu | hu | hu | hu | hu
          · simp at hu
          · simp at hu
          · simp at hu
          · simp at hu
          · rcases (List.mem_append.mp hu) with hx | hx
            · rcases (List.mem_append.mp hx) with hy | hy
              · rw [hp] at hy
                rcases List.mem_map.mp hy with ⟨i2, hi2, hi⟩
                have : i2 = i := by
                  have := congrArg (fun e => match e with
                    | Event.deleteIssued _ j => j
                    | _ => "") hi
                  simpa using this
                rw [← this]
                exact hi2
              · rcases mem_uploadEvents.mp hy with ⟨f, _, hf⟩
                simp at hf
            · simp at hx

theorem postResolveState_fields (s : PluginState) (hash : String) :
    (postResolveState s hash).baseSentryURL = s.baseSentryURL ∧
      (postResolveState s hash).organizationSlug = s.organizationSlug ∧
      (postResolveState s hash).projectSlug = s.projectSlug ∧
      (postResolveState s hash).apiKey = s.apiKey ∧
      (postResolveState s hash).suppressErrors = s.suppressErrors ∧
      (postResolveState s hash).suppressConflictError = s.suppressConflictError ∧
      (postResolveState s hash).shouldOverwrite = s.shouldOverwrite ∧
      (postResolveState s hash).releaseVersion = resolvedVersion s hash :=
  ⟨rfl, rfl, rfl, rfl, rfl, rfl, rfl, rfl⟩

theorem sentryReleaseUrl_postResolve (s : PluginState) (hash : String) :
    sentryReleaseUrl (postResolveState s hash) = sentryReleaseUrl s := rfl

theorem afterEmit_some (s : PluginState) (comp : Compilation) (o : ApiOracle)
    (e : JsError) (h : ensureRequiredOptions s = some e) :
    afterEmit s comp o =
      (([] : List Event), s,
       ⟨(handleErrors s e comp.collectors).1, (handleErrors s e comp.collectors).2, none⟩) := by
  simp [afterEmit, h]

theorem afterEmit_none (s : PluginState) (comp : Compilation) (o : ApiOracle)
    (h : ensureRequiredOptions s = none) :
    afterEmit s comp o =
      (versionEvents s comp.hash ++
         bodyEvents { s with releaseVersion := resolvedVersion s comp.hash } ++
         (runChain (postResolveState s comp.hash) (getFiles s comp.assets)
           comp.collectors o).1,
       postResolveState s comp.hash,
       (runChain (postResolveState s comp.hash) (getFiles s comp.assets)
         comp.collectors o).2) := by
  simp [afterEmit, h]

theorem mem_versionEvents {s : PluginState} {hash : String} {e : Event}
    (hm : e ∈ versionEvents s hash) : e = .resolveVersion hash := by
  unfold versionEvents at hm
  split at hm
  · simpa using hm
  · simp at hm

theorem mem_bodyEvents {s : PluginState} {e : Event}
    (hm : e ∈ bodyEvents s) :
    e = .resolveBody s.releaseVersion.strVal (s.projectSlug.getD []) := by
  unfold bodyEvents at hm
  split at hm
  · simpa using hm
  · simp at hm

theorem versionEvents_vfn {s : PluginState} {hash : String} {f : String → String}
    (h : s.releaseVersion = .vfn f) : versionEvents s hash = [.resolveVersion hash] := by
  simp [versionEvents, h]

theorem bodyEvents_bfn {s : PluginState} {g : String → List String → JsonVal}
    (h : s.releaseBody = .bfn g) :
    bodyEvents s = [.resolveBody s.releaseVersion.strVal (s.projectSlug.getD [])] := by
  simp [bodyEvents, h]

theorem filter_versionEvents_not (s : PluginState) (hash : String) (p : Event → Bool)
    (hp : p (.resolveVersion hash) = false) :
    (versionEvents s hash).filter p = [] := by
  refine List.filter_eq_nil_iff.mpr ?_
  intro e he
  rw [mem_versionEvents he, hp]
  simp

theorem filter_bodyEvents_not (s : PluginState) (p : Event → Bool)
    (hp : p (.resolveBody s.releaseVersion.strVal (s.projectSlug.getD [])) = false) :
    (bodyEvents s).filter p = [] := by
  refine List.filter_eq_nil_iff.mpr ?_
  intro e he
  rw [mem_bodyEvents he, hp]
  simp

theorem projectsRegexTest_iff (u : String) :
    projectsRegexTest u = true ↔ ∃ p : String, p ++ "/projects" = u := by
  unfold projectsRegexTest suffixTest
  rw [decide_eq_true_iff]
  constructor
  · rintro ⟨t, ht⟩
    refine ⟨String.mk t, ?_⟩
    have : (String.mk t ++ "/projects").data = u.data := by
      rw [String.data_append]
      exact ht
    calc String.mk t ++ "/projects"
        = String.mk ((String.mk t ++ "/projects").data) := rfl
      _ = String.mk u.data := by rw [this]
      _ = u := rfl
  · rintro ⟨p, hp⟩
    exact ⟨p.data, by rw [← String.data_append, hp]⟩

theorem stripProjects_append (p : String) : stripProjects (p ++ "/projects") = p := by
  unfold stripProjects
  rw [String.data_append]
  have h9 : ("/projects" : String).data.length = 9 := rfl
  rw [List.length_append, h9, Nat.add_sub_cancel, List.take_left]

theorem removePaths_spec (ps : List String) : ∀ fsys : List String, fsys.Nodup →
    ps.Nodup → (∀ p ∈ ps, p ∈ fsys) →
    ∃ fs2, removePaths fsys ps = .ok fs2 ∧ fs2.Nodup ∧
      ∀ q, q ∈ fs2 ↔ q ∈ fsys ∧ q ∉ ps := by
  induction ps with
  | nil =>
      intro fsys hn _ _
      exact ⟨fsys, rfl, hn, by simp⟩
  | cons p ps ih =>
      intro fsys hn hnd hall
      have hmem : p ∈ fsys := hall p (List.mem_cons_self p ps)
      have hstep : unlinkSync fsys p = .ok (fsys.erase p) := by simp [unlinkSync, hmem]
      have hn2 : (fsys.erase p).Nodup := hn.erase p
      have hnd2 : ps.Nodup := (List.nodup_cons.mp hnd).2
      have hpn : p ∉ ps := (List.nodup_cons.mp hnd).1
      have hall2 : ∀ q ∈ ps, q ∈ fsys.erase p := by
        intro q hq
        exact hn.mem_erase_iff.mpr
          ⟨fun he => hpn (he ▸ hq), hall q (List.mem_cons_of_mem p hq)⟩
      rcases ih (fsys.erase p) hn2 hnd2 hall2 with ⟨fs2, hrun, hfn, hiff⟩
      refine ⟨fs2, ?_, hfn, ?_⟩
      · simp [removePaths, hstep, hrun]
      · intro q
        rw [hiff q, hn.mem_erase_iff]
        constructor
        · rintro ⟨⟨hqp, hqf⟩, hqs⟩
          exact ⟨hqf, by simp [hqp, hqs]⟩
        · rintro ⟨hqf, hqs⟩
          simp only [List.mem_cons, not_or] at hqs
          exact ⟨⟨hqs.1, hqf⟩, hqs.2⟩

theorem getFiles_eq (s : PluginState) (assets : List Asset) :
    getFiles s assets =
      (assets.filter (fun a => isIncludeOrExclude s a.name)).map
        (fun a => (⟨a.name, a.existsAt⟩ : FileEntry)) := by
  induction assets with
  | nil => rfl
  | cons a as ih =>
      by_cases hsel : isIncludeOrExclude s a.name
      · simp [getFiles, List.filterMap_cons, List.filter_cons, hsel] at ih ⊢
        exact ih
      · simp [getFiles, List.filterMap_cons, List.filter_cons, hsel] at ih ⊢
        exact ih

/-- The selection condition of claim C4, written from the claim text: the
asset name matches the include pattern (or all assets are taken when no
include pattern is set) and does not match the exclude pattern (if one is
set). -/
def specSelected (s : PluginState) (n : String) : Prop :=
  (∀ pat, s.includeFilter = some pat → pat n = true) ∧
    (∀ pat, s.excludeFilter = some pat → pat n = false)

theorem isIncludeOrExclude_iff (s : PluginState) (n : String) :
    isIncludeOrExclude s n = true ↔ specSelected s n := by
  unfold isIncludeOrExclude specSelected
  cases hi : s.includeFilter <;> cases he : s.excludeFilter <;> simp [hi, he]

/-! ### Claim C4 -/

/-- C4: for every asset mapping and include/exclude configuration, the
selected upload set contains a `{name, path}` pair iff the asset's name
passes the include test (or no include pattern is set) and fails the
exclude test (if one is set), with the path taken from the asset's
`existsAt` field; the list order equals the mapping's iteration order
(the selection is the order-preserving filter of the input list). -/
theorem c4_file_selection (s : PluginState) (assets : List Asset) :
    getFiles s assets =
      (assets.filter (fun a => isIncludeOrExclude s a.name)).map
        (fun a => (⟨a.name, a.existsAt⟩ : FileEntry)) ∧
    ∀ n p, (⟨n, p⟩ : FileEntry) ∈ getFiles s assets ↔
      (∃ a ∈ assets, a.name = n ∧ a.existsAt = p) ∧ specSelected s n := by
  refine ⟨getFiles_eq s assets, ?_⟩
  intro n p
  rw [getFiles_eq s assets]
  simp only [List.mem_map, List.mem_filter]
  constructor
  · rintro ⟨a, ⟨ha, hsel⟩, heq⟩
    have hn : a.name = n := congrArg FileEntry.name heq
    have hpp : a.existsAt = p := congrArg FileEntry.path heq
    exact ⟨⟨a, ha, hn, hpp⟩, (isIncludeOrExclude_iff s n).mp (hn ▸ hsel)⟩
  · rintro ⟨⟨a, ha, hn, hpp⟩, hsel⟩
    refine ⟨a, ⟨ha, ?_⟩, by rw [hn, hpp]⟩
    rw [hn]
    exact (isIncludeOrExclude_iff s n).mpr hsel

/-- C4 witness at a concrete state: default include pattern, exclude
pattern matching map files. -/
theorem c4_witness :
    getFiles
        ⟨BASE_SENTRY_URL, some "acme", some ["web"], some "k", .blit (.lit "body"),
          .vstr "v1", some DEFAULT_INCLUDE, some DEFAULT_DELETE_REGEX, DEFAULT_TRANSFORM,
          false, false, false, false, DEFAULT_DELETE_REGEX⟩
        [⟨"a.js", "pa"⟩, ⟨"a.js.map", "pm"⟩, ⟨"a.css", "pc"⟩] =
      [⟨"a.js", "pa"⟩] ∧
    ((⟨"a.js", "pa"⟩ : FileEntry) ∈ getFiles
        ⟨BASE_SENTRY_URL, some "acme", some ["web"], some "k", .blit (.lit "body"),
          .vstr "v1", some DEFAULT_INCLUDE, some DEFAULT_DELETE_REGEX, DEFAULT_TRANSFORM,
          false, false, false, false, DEFAULT_DELETE_REGEX⟩
        [⟨"a.js", "pa"⟩, ⟨"a.js.map", "pm"⟩, ⟨"a.css", "pc"⟩] ↔
      (∃ a ∈ [(⟨"a.js", "pa"⟩ : Asset), ⟨"a.js.map", "pm"⟩, ⟨"a.css", "pc"⟩],
          a.name = "a.js" ∧ a.existsAt = "pa") ∧
        specSelected
          ⟨BASE_SENTRY_URL, some "acme", some ["web"], some "k", .blit (.lit "body"),
            .vstr "v1", some DEFAULT_INCLUDE, some DEFAULT_DELETE_REGEX, DEFAULT_TRANSFORM,
            false, false, false, false, DEFAULT_DELETE_REGEX⟩ "a.js") :=
  ⟨by decide, (c4_file_selection _ _).2 "a.js" "pa"⟩

/-! ### Claim C6 -/

/-- C6: a failure routed to `handleErrors` is appended, formatted with the
fixed tag, to the warnings collector when `suppressErrors` holds or when
`suppressConflictError` holds and the status code is 409, and to the errors
collector otherwise; the completion callback is invoked in every case. -/
theorem c6_error_routing (s : PluginState) (err : JsError) (c : Collectors) :
    (handleErrors s err c).2 = true ∧
    ((s.suppressErrors = true ∨
        (s.suppressConflictError = true ∧ err.statusCode = some 409)) →
      (handleErrors s err c).1 =
        ⟨c.warnings ++ ["Sentry Plugin: " ++ err.str], c.errors⟩) ∧
    ((s.suppressErrors = false ∧
        (s.suppressConflictError = false ∨ err.statusCode ≠ some 409)) →
      (handleErrors s err c).1 =
        ⟨c.warnings, c.errors ++ ["Sentry Plugin: " ++ err.str]⟩) := by
  cases hse : s.suppressErrors <;> cases hsc : s.suppressConflictError <;>
    cases hst : err.statusCode == some 409 <;>
      simp_all [handleErrors]

/-- C6 witness: a 409 conflict with `suppressConflictError` set becomes a
warning and the callback fires. -/
theorem c6_witness :
    (handleErrors
        ⟨BASE_SENTRY_URL, some "acme", some ["web"], some "k", .blit (.lit "body"),
          .vstr "v1", none, none, DEFAULT_TRANSFORM, false, true, false, false,
          DEFAULT_DELETE_REGEX⟩
        ⟨"StatusCodeError 409", some 409⟩ ⟨[], []⟩).2 = true ∧
    (handleErrors
        ⟨BASE_SENTRY_URL, some "acme", some ["web"], some "k", .blit (.lit "body"),
          .vstr "v1", none, none, DEFAULT_TRANSFORM, false, true, false, false,
          DEFAULT_DELETE_REGEX⟩
        ⟨"StatusCodeError 409", some 409⟩ ⟨[], []⟩).1 =
      ⟨[] ++ ["Sentry Plugin: " ++ "StatusCodeError 409"], []⟩ :=
  ⟨(c6_error_routing _ _ _).1,
   (c6_error_routing _ _ _).2.1 (Or.inr ⟨rfl, rfl⟩)⟩

/-! ### Claim C8 -/

/-- C8: the configured base URL is the known service root when no base URL
is given; a given base URL ending in the deprecated `/projects` suffix is
stored with that suffix stripped and a (non-fatal) console warning is
emitted; any other given base URL is stored unchanged with no warning. -/
theorem c8_base_url_normalization (opts : Options) :
    (truthyStr opts.baseSentryURL = false →
      (mkPlugin opts).1.baseSentryURL = "https://sentry.io/api/0" ∧
        (mkPlugin opts).2 = []) ∧
    (∀ u p, opts.baseSentryURL = some u → u ≠ "" → p ++ "/projects" = u →
      (mkPlugin opts).1.baseSentryURL = p ∧
        (mkPlugin opts).2 = [DEPRECATION_WARNING]) ∧
    (∀ u, opts.baseSentryURL = some u → u ≠ "" → (∀ p, ¬ p ++ "/projects" = u) →
      (mkPlugin opts).1.baseSentryURL = u ∧ (mkPlugin opts).2 = []) := by
  refine ⟨?_, ?_, ?_⟩
  · intro h
    simp [mkPlugin, normalizeBaseURL, h, BASE_SENTRY_URL]
  · intro u p hsome hne happ
    have htr : truthyStr opts.baseSentryURL = true := by simp [truthyStr, hsome, hne]
    have htest : projectsRegexTest u = true := (projectsRegexTest_iff u).mpr ⟨p, happ⟩
    have hstrip : stripProjects u = p := by rw [← happ, stripProjects_append]
    simp [mkPlugin, normalizeBaseURL, hsome, htr, htest, hstrip, truthyStr, hne]
  · intro u hsome hne hno
    have htr : truthyStr opts.baseSentryURL = true := by simp [truthyStr, hsome, hne]
    have htest : projectsRegexTest u = false := by
      rcases hc : projectsRegexTest u with hfalse | htrue
      · rfl
      · rcases (projectsRegexTest_iff u).mp hc with ⟨p, hp⟩
        exact absurd hp (hno p)
    simp [mkPlugin, normalizeBaseURL, hsome, htr, htest, truthyStr, hne]

/-- C8 witness: the three normalization cases at concrete option values. -/
theorem c8_witness :
    ((mkPlugin ⟨some "http://x/projects", some "acme", none, none, some "k", none,
        .vnone, none, none, none, false, false, false, false, none⟩).1.baseSentryURL =
      "http://x" ∧
     (mkPlugin ⟨some "http://x/projects", some "acme", none, none, some "k", none,
        .vnone, none, none, none, false, false, false, false, none⟩).2 =
      [DEPRECATION_WARNING]) ∧
    ((mkPlugin ⟨none, some "acme", none, none, some "k", none,
        .vnone, none, none, none, false, false, false, false, none⟩).1.baseSentryURL =
      "https://sentry.io/api/0" ∧
     (mkPlugin ⟨none, some "acme", none, none, some "k", none,
        .vnone, none, none, none, false, false, false, false, none⟩).2 = []) :=
  ⟨(c8_base_url_normalization _).2.1 "http://x/projects" "http://x" rfl
      (by decide) (by decide),
   (c8_base_url_normalization _).1 (by decide)⟩

/-! ### Claim C3 -/

/-- Options with an empty-string `project` and every other required field
present. -/
def optsEmptyProject : Options :=
  ⟨none, some "acme", none, some (.pstr ""), some "k", some (.blit (.lit "body")),
   .vstr "v1", none, none, none, false, false, false, false, none⟩

/-- A compilation with no assets and fresh collectors. -/
def compEmpty : Compilation := ⟨[], "h", ⟨[], []⟩⟩

/-- Responses where every request succeeds and the artifact listing is an
empty array. -/
def oracleOk : ApiOracle := ⟨.ok (), .ok (.parsed []), fun _ => .ok ()⟩

/-- C3 counterexample: for the configuration whose `project` option is the
empty string (a "missing (empty)" project in the claim's sense, with all
other required fields present), the constructor coerces the empty string to
the one-element array `[""]`, which is truthy, so validation passes: the
`after-emit` flow issues the create-release network request and reports no
failure, where the claim requires one error and no network call. -/
theorem c3_counterexample :
    optsEmptyProject.project = some (.pstr "") ∧
    (mkPlugin optsEmptyProject).1.projectSlug = some [""] ∧
    Event.createIssued "https://sentry.io/api/0/organizations/acme/releases/" (.lit "body") ∈
      (afterEmit (mkPlugin optsEmptyProject).1 compEmpty oracleOk).1 ∧
    (afterEmit (mkPlugin optsEmptyProject).1 compEmpty oracleOk).2.2.collectors =
      ⟨[], []⟩ := by
  refine ⟨rfl, rfl, ?_, ?_⟩ <;> decide

/-- C3 (amended): "missing" is JavaScript falsiness of the stored fields —
organization or apiKey empty/absent, project absent (an empty-string
project is coerced by the constructor to a one-element array and counts as
present), release version empty/absent.  For every such configuration the
`after-emit` hook reports exactly one failure message identifying the first
missing field in the fixed order organization, project, apiKey, release
version (as a warning when `suppressErrors` is set, as an error otherwise),
invokes the callback, and issues no network call and no resolution. -/
theorem c3_amended_validation_order (s : PluginState) (comp : Compilation)
    (o : ApiOracle) :
    (truthyStr s.organizationSlug = false →
      afterEmit s comp o = ([], s,
        ⟨if s.suppressErrors then
            ⟨comp.collectors.warnings ++ ["Sentry Plugin: Error: Must provide organization"],
             comp.collectors.errors⟩
          else
            ⟨comp.collectors.warnings,
             comp.collectors.errors ++ ["Sentry Plugin: Error: Must provide organization"]⟩,
         true, none⟩)) ∧
    (truthyStr s.organizationSlug = true → s.projectSlug = none →
      afterEmit s comp o = ([], s,
        ⟨if s.suppressErrors then
            ⟨comp.collectors.warnings ++ ["Sentry Plugin: Error: Must provide project"],
             comp.collectors.errors⟩
          else
            ⟨comp.collectors.warnings,
             comp.collectors.errors ++ ["Sentry Plugin: Error: Must provide project"]⟩,
         true, none⟩)) ∧
    (truthyStr s.organizationSlug = true → s.projectSlug ≠ none →
      truthyStr s.apiKey = false →
      afterEmit s comp o = ([], s,
        ⟨if s.suppressErrors then
            ⟨comp.collectors.warnings ++ ["Sentry Plugin: Error: Must provide api key"],
             comp.collectors.errors⟩
          else
            ⟨comp.collectors.warnings,
             comp.collectors.errors ++ ["Sentry Plugin: Error: Must provide api key"]⟩,
         true, none⟩)) ∧
    (truthyStr s.organizationSlug = true → s.projectSlug ≠ none →
      truthyStr s.apiKey = true → s.releaseVersion.truthy = false →
      afterEmit s comp o = ([], s,
        ⟨if s.suppressErrors then
            ⟨comp.collectors.warnings ++ ["Sentry Plugin: Error: Must provide release version"],
             comp.collectors.errors⟩
          else
            ⟨comp.collectors.warnings,
             comp.collectors.errors ++ ["Sentry Plugin: Error: Must provide release version"]⟩,
         true, none⟩)) := by
  refine ⟨?_, ?_, ?_, ?_⟩
  · intro h1
    have he : ensureRequiredOptions s = some ⟨"Error: Must provide organization", none⟩ := by
      simp [ensureRequiredOptions, h1]
    rw [afterEmit_some s comp o _ he]
    cases hse : s.suppressErrors <;> simp [handleErrors, hse]
  · intro h1 h2
    have he : ensureRequiredOptions s = some ⟨"Error: Must provide project", none⟩ := by
      simp [ensureRequiredOptions, h1, h2]
    rw [afterEmit_some s comp o _ he]
    cases hse : s.suppressErrors <;> simp [handleErrors, hse]
  · intro h1 h2 h3
    have h2b : s.projectSlug.isNone = false := by
      rcases hps : s.projectSlug with _ | l
      · exact absurd hps h2
      · rfl
    have h2c : s.projectSlug.isSome = true := by
      rcases hps : s.projectSlug with _ | l
      · exact absurd hps h2
      · rfl
    have he : ensureRequiredOptions s = some ⟨"Error: Must provide api key", none⟩ := by
      simp [ensureRequiredOptions, h1, h2b, h2c, h3]
    rw [afterEmit_some s comp o _ he]
    cases hse : s.suppressErrors <;> simp [handleErrors, hse]
  · intro h1 h2 h3 h4
    have h2b : s.projectSlug.isNone = false := by
      rcases hps : s.projectSlug with _ | l
      · exact absurd hps h2
      · rfl
    have h2c : s.projectSlug.isSome = true := by
      rcases hps : s.projectSlug with _ | l
      · exact absurd hps h2
      · rfl
    have he : ensureRequiredOptions s = some ⟨"Error: Must provide release version", none⟩ := by
      simp [ensureRequiredOptions, h1, h2b, h2c, h3, h4]
    rw [afterEmit_some s comp o _ he]
    cases hse : s.suppressErrors <;> simp [handleErrors, hse]

/-- A state whose apiKey is absent and whose other required fields are
present. -/
def stateNoKey : PluginState :=
  ⟨BASE_SENTRY_URL, some "acme", some ["web"], none, .blit (.lit "body"), .vstr "v1",
   none, none, DEFAULT_TRANSFORM, false, false, false, false, DEFAULT_DELETE_REGEX⟩

/-- C3 witness: a missing apiKey with organization and project present
yields exactly the api-key error, no trace, and an invoked callback. -/
theorem c3_amended_witness :
    afterEmit stateNoKey compEmpty oracleOk =
      ([], stateNoKey,
       ⟨⟨[], ["Sentry Plugin: Error: Must provide api key"]⟩, true, none⟩) := by
  have h := (c3_amended_validation_order stateNoKey compEmpty oracleOk).2.2.1
    (by decide) (by decide) (by decide)
  simpa using h

/-! ### Claim C9 -/

/-- C9 (amended): with `deleteAfterCompile` set, provided the matched
assets' on-disk paths are distinct and all exist, the `done` hook removes
exactly the files backing pattern-matching assets; every path that is not
the path of a matching asset — in particular the file backing any
non-matching asset whose path is not shared with a matching one — is left
untouched. -/
theorem c9_amended_cleanup (s : PluginState) (assets : List Asset) (fsys : List String)
    (hflag : s.deleteAfterCompile = true)
    (hfs : fsys.Nodup)
    (hnd : ((assets.filter (fun a => s.deleteRegex a.name)).map Asset.existsAt).Nodup)
    (hall : ∀ p ∈ (assets.filter (fun a => s.deleteRegex a.name)).map Asset.existsAt,
      p ∈ fsys) :
    ∃ fs2, doneHook s assets fsys = .ok fs2 ∧
      (∀ a ∈ assets, s.deleteRegex a.name = true → a.existsAt ∉ fs2) ∧
      (∀ q, q ∉ (assets.filter (fun a => s.deleteRegex a.name)).map Asset.existsAt →
        (q ∈ fs2 ↔ q ∈ fsys)) := by
  rcases removePaths_spec _ fsys hfs hnd hall with ⟨fs2, hrun, _, hiff⟩
  refine ⟨fs2, ?_, ?_, ?_⟩
  · rw [doneHook, hflag]
    simpa [deleteFiles] using hrun
  · intro a ha hm hq
    rcases (hiff a.existsAt).mp hq with ⟨_, hnot⟩
    exact hnot (List.mem_map.mpr ⟨a, List.mem_filter.mpr ⟨ha, hm⟩, rfl⟩)
  · intro q hq
    rw [hiff q]
    exact ⟨fun h => h.1, fun h => ⟨h, hq⟩⟩

/-- A state with post-build cleanup enabled and the default deletion
pattern. -/
def stateCleanup : PluginState :=
  ⟨BASE_SENTRY_URL, some "acme", some ["web"], some "k", .blit (.lit "body"), .vstr "v1",
   none, none, DEFAULT_TRANSFORM, false, false, false, true, DEFAULT_DELETE_REGEX⟩

/-- C9 counterexample: when a non-matching asset (`b.js`) shares its
on-disk path with a matching one (`a.js.map`), the `done` hook removes that
shared path, so the file backing the non-matching asset is not left
untouched: the filesystem that contained the file ends up empty. -/
theorem c9_counterexample :
    stateCleanup.deleteRegex "b.js" = false ∧
    stateCleanup.deleteAfterCompile = true ∧
    doneHook stateCleanup [⟨"a.js.map", "p"⟩, ⟨"b.js", "p"⟩] ["p"] = .ok [] := by
  refine ⟨by decide, rfl, rfl⟩

/-- C9 witness: distinct paths, only the file backing the matching
`a.js.map` is removed and the file backing `b.js` survives. -/
theorem c9_amended_witness :
    stateCleanup.deleteAfterCompile = true ∧
    (["pa", "pb"] : List String).Nodup ∧
    ∃ fs2, doneHook stateCleanup [⟨"a.js.map", "pa"⟩, ⟨"b.js", "pb"⟩] ["pa", "pb"] = .ok fs2 ∧
      (∀ a ∈ [(⟨"a.js.map", "pa"⟩ : Asset), ⟨"b.js", "pb"⟩],
        stateCleanup.deleteRegex a.name = true → a.existsAt ∉ fs2) ∧
      (∀ q, q ∉ (([(⟨"a.js.map", "pa"⟩ : Asset), ⟨"b.js", "pb"⟩].filter
          (fun a => stateCleanup.deleteRegex a.name)).map Asset.existsAt) →
        (q ∈ fs2 ↔ q ∈ ["pa", "pb"])) :=
  ⟨rfl, by decide,
   c9_amended_cleanup stateCleanup [⟨"a.js.map", "pa"⟩, ⟨"b.js", "pb"⟩] ["pa", "pb"]
     rfl (by decide) (by decide) (by decide)⟩

/-! ### Claim C1 -/

/-- A fully valid state with `shouldOverwrite` disabled. -/
def stateBasic : PluginState :=
  ⟨BASE_SENTRY_URL, some "acme", some ["web"], some "k", .blit (.lit "body"), .vstr "v1",
   none, none, DEFAULT_TRANSFORM, false, false, false, false, DEFAULT_DELETE_REGEX⟩

/-- C1 counterexample: with `shouldOverwrite = false` and a successful
create-release response, the flow still issues the artifact-listing GET
request (the `getReleaseArtifacts` call in the chain is unconditional; only
the deletions are guarded), where the claim requires that no
artifact-listing request is ever made. -/
theorem c1_counterexample :
    stateBasic.shouldOverwrite = false ∧
    Event.listIssued "https://sentry.io/api/0/organizations/acme/releases/v1/files/" ∈
      (afterEmit stateBasic compEmpty oracleOk).1 :=
  ⟨rfl, by decide⟩

/-- C1 (amended): with `shouldOverwrite = false` no artifact-deletion
(DELETE) request is ever issued, for every configuration, compilation and
set of API responses; the artifact-listing GET request, however, is still
issued whenever validation passes and release creation succeeds. -/
theorem c1_amended_no_delete (s : PluginState) (comp : Compilation) (o : ApiOracle)
    (h : s.shouldOverwrite = false) :
    (∀ u id, Event.deleteIssued u id ∉ (afterEmit s comp o).1) ∧
    (ensureRequiredOptions s = none → o.createResult = .ok () →
      Event.listIssued
          (sentryReleaseUrl s ++ "/" ++ (resolvedVersion s comp.hash).strVal ++ "/files/") ∈
        (afterEmit s comp o).1) := by
  constructor
  · intro u id
    cases he : ensureRequiredOptions s with
    | some e =>
        rw [afterEmit_some s comp o e he]
        simp
    | none =>
        rw [afterEmit_none s comp o he]
        intro hmem
        rcases List.mem_append.mp hmem with hx | hx
        · rcases List.mem_append.mp hx with hy | hy
          · simpa using mem_versionEvents hy
          · simpa using mem_bodyEvents hy
        · exact runChain_no_delete (postResolveState s comp.hash) (getFiles s comp.assets)
            comp.collectors o h u id hx
  · intro hv hc
    rw [afterEmit_none s comp o hv]
    exact List.mem_append.mpr (Or.inr
      (runChain_listIssued_mem (postResolveState s comp.hash) (getFiles s comp.assets)
        comp.collectors o hc))

/-- C1 witness: instance of the amended claim at a concrete configuration
with `shouldOverwrite = false` and successful responses. -/
theorem c1_amended_witness :
    stateBasic.shouldOverwrite = false ∧
    ensureRequiredOptions stateBasic = none ∧
    (∀ u id, Event.deleteIssued u id ∉ (afterEmit stateBasic compEmpty oracleOk).1) ∧
    Event.listIssued
        (sentryReleaseUrl stateBasic ++ "/" ++
          (resolvedVersion stateBasic compEmpty.hash).strVal ++ "/files/") ∈
      (afterEmit stateBasic compEmpty oracleOk).1 :=
  ⟨rfl, by decide,
   (c1_amended_no_delete stateBasic compEmpty oracleOk rfl).1,
   (c1_amended_no_delete stateBasic compEmpty oracleOk rfl).2 (by decide) rfl⟩

/-! ### Claim C5 -/

/-- A fully valid state with `shouldOverwrite` enabled. -/
def stateOverwrite : PluginState :=
  { stateBasic with shouldOverwrite := true }

/-- Responses whose artifact listing decodes to one object whose `id` field
is present but empty (JavaScript-falsy). -/
def oracleEmptyId : ApiOracle := ⟨.ok (), .ok (.parsed [⟨some ""⟩]), fun _ => .ok ()⟩

/-- C5 counterexample: a listed-artifacts response decoding to one object
that carries an `id` field whose value is the empty string yields zero
deletion calls, where the claim (counting objects that carry an `id`
field) requires exactly one: the source's `if (artifactID)` is a
truthiness test, not a presence test. -/
theorem c5_counterexample :
    stateOverwrite.shouldOverwrite = true ∧
    (([⟨some ""⟩] : List Artifact).filter (fun a => a.id.isSome)).length = 1 ∧
    (afterEmit stateOverwrite compEmpty oracleEmptyId).1.filter Event.isDelete = [] := by
  exact ⟨rfl, by decide, by decide⟩

/-- C5 (amended): with `shouldOverwrite = true`, a passing validation and a
listed-artifacts response decoding to a sequence of objects of which M
carry a truthy (non-empty) `id`, exactly M artifact-deletion calls are
issued, one per truthy-id object in listing order, each to the URL
`{releaseURL}/{version}/files/{id}/`. -/
theorem c5_amended_deletions (s : PluginState) (comp : Compilation) (o : ApiOracle)
    (arts : List Artifact)
    (h1 : s.shouldOverwrite = true) (h2 : ensureRequiredOptions s = none)
    (h3 : o.createResult = .ok ()) (h4 : o.listResult = .ok (.parsed arts)) :
    (afterEmit s comp o).1.filter Event.isDelete =
      (truthyIdList arts).map (fun id =>
        Event.deleteIssued
          (sentryReleaseUrl s ++ "/" ++ (resolvedVersion s comp.hash).strVal ++
            "/files/" ++ id ++ "/") id) := by
  rw [afterEmit_none s comp o h2]
  rw [List.filter_append, List.filter_append]
  rw [filter_versionEvents_not s comp.hash Event.isDelete rfl]
  rw [filter_bodyEvents_not _ Event.isDelete rfl]
  simp only [List.nil_append]
  exact runChain_filter_delete (postResolveState s comp.hash) (getFiles s comp.assets)
    comp.collectors o arts h1 h3 h4

/-- Responses whose artifact listing decodes to one truthy-id object and
one object without an `id` field. -/
def oracleTwoArts : ApiOracle :=
  ⟨.ok (), .ok (.parsed [⟨some "42"⟩, ⟨none⟩]), fun _ => .ok ()⟩

/-- C5 witness: one truthy-id artifact out of two listed objects yields
exactly one DELETE, to the per-artifact URL. -/
theorem c5_amended_witness :
    stateOverwrite.shouldOverwrite = true ∧
    ensureRequiredOptions stateOverwrite = none ∧
    (afterEmit stateOverwrite compEmpty oracleTwoArts).1.filter Event.isDelete =
      (truthyIdList [⟨some "42"⟩, ⟨none⟩]).map (fun id =>
        Event.deleteIssued
          (sentryReleaseUrl stateOverwrite ++ "/" ++
            (resolvedVersion stateOverwrite compEmpty.hash).strVal ++
            "/files/" ++ id ++ "/") id) :=
  ⟨rfl, by decide,
   c5_amended_deletions stateOverwrite compEmpty oracleTwoArts [⟨some "42"⟩, ⟨none⟩]
     rfl (by decide) rfl rfl⟩

/-! ### Claim C2 -/

theorem afterEmit_mem_cases {s : PluginState} {comp : Compilation} {o : ApiOracle}
    {e : Event} (hv : ensureRequiredOptions s = none)
    (hmem : e ∈ (afterEmit s comp o).1)
    (h1 : e.isResolveVersion = false) (h2 : e.isResolveBody = false) :
    e ∈ (runChain (postResolveState s comp.hash) (getFiles s comp.assets)
      comp.collectors o).1 := by
  rw [afterEmit_none s comp o hv] at hmem
  rcases List.mem_append.mp hmem with hx | hx
  · rcases List.mem_append.mp hx with hy | hy
    · rw [mem_versionEvents hy] at h1
      simp [Event.isResolveVersion] at h1
    · rw [mem_bodyEvents hy] at h2
      simp [Event.isResolveBody] at h2
  · exact hx

theorem sublist_afterEmit {s : PluginState} {comp : Compilation} {o : ApiOracle}
    {l : List Event} (hv : ensureRequiredOptions s = none)
    (h : List.Sublist l (runChain (postResolveState s comp.hash) (getFiles s comp.assets)
      comp.collectors o).1) :
    List.Sublist l (afterEmit s comp o).1 := by
  rw [afterEmit_none s comp o hv]
  exact sublist_prepend _ h

/-- Responses where one artifact with a truthy id is listed. -/
def oracleOneArt : ApiOracle := ⟨.ok (), .ok (.parsed [⟨some "7"⟩]), fun _ => .ok ()⟩

/-- A compilation with one selected asset. -/
def compOneAsset : Compilation := ⟨[⟨"app.js", "A"⟩], "h", ⟨[], []⟩⟩

/-- C2 counterexample: in an overwrite run with one listed artifact and one
selected file, the DELETE request is issued and the upload is issued, but
at the moment the upload stage starts the DELETE request is still pending
(`pendingDeletes = some ["7"]`): the `forEach` in `deleteArtifacts` drops
the deletion promises, so the upload stage begins before the deletion
stage's asynchronous result is available, contradicting the claim that
artifact deletion completes before any file upload starts. -/
theorem c2_counterexample :
    Event.deleteIssued "https://sentry.io/api/0/organizations/acme/releases/v1/files/7/" "7" ∈
      (afterEmit stateOverwrite compOneAsset oracleOneArt).1 ∧
    Event.uploadIssued "https://sentry.io/api/0/organizations/acme/releases/v1/files/"
        "~/app.js" "A" ∈
      (afterEmit stateOverwrite compOneAsset oracleOneArt).1 ∧
    (afterEmit stateOverwrite compOneAsset oracleOneArt).2.2.pendingDeletes =
      some ["7"] := by
  exact ⟨by decide, by decide, by decide⟩

/-- C2 (amended): the awaited stages are strictly sequential — the
artifact-listing GET is issued only after release creation settled
successfully, and deletions and uploads are issued only after the listing
settled successfully; DELETE requests are issued before the uploads are
issued, but they are not awaited: every DELETE request issued in the run is
still pending when the upload stage starts (recorded in `pendingDeletes`),
so uploads may begin before deletions complete. -/
theorem c2_amended_sequential_stages (s : PluginState) (comp : Compilation)
    (o : ApiOracle) :
    (∀ u, Event.listIssued u ∈ (afterEmit s comp o).1 →
      List.Sublist [Event.createSettled true, Event.listIssued u]
        (afterEmit s comp o).1) ∧
    (∀ u i, Event.deleteIssued u i ∈ (afterEmit s comp o).1 →
      List.Sublist [Event.listSettled true, Event.deleteIssued u i]
        (afterEmit s comp o).1) ∧
    (∀ u n p, Event.uploadIssued u n p ∈ (afterEmit s comp o).1 →
      List.Sublist [Event.listSettled true, Event.uploadIssued u n p]
        (afterEmit s comp o).1) ∧
    (∀ u i u2 n p, Event.deleteIssued u i ∈ (afterEmit s comp o).1 →
      Event.uploadIssued u2 n p ∈ (afterEmit s comp o).1 →
      List.Sublist [Event.deleteIssued u i, Event.uploadIssued u2 n p]
        (afterEmit s comp o).1) ∧
    (∀ ids, (afterEmit s comp o).2.2.pendingDeletes = some ids →
      ∀ i, i ∈ ids ↔ ∃ u, Event.deleteIssued u i ∈ (afterEmit s comp o).1) := by
  cases he : ensureRequiredOptions s with
  | some e =>
      rw [afterEmit_some s comp o e he]
      refine ⟨?_, ?_, ?_, ?_, ?_⟩ <;> simp
  | none =>
      refine ⟨?_, ?_, ?_, ?_, ?_⟩
      · intro u hm
        exact sublist_afterEmit he
          (runChain_order_create_list _ _ _ _ u (afterEmit_mem_cases he hm rfl rfl))
      · intro u i hm
        exact sublist_afterEmit he
          (runChain_order_list_delete _ _ _ _ u i (afterEmit_mem_cases he hm rfl rfl))
      · intro u n p hm
        exact sublist_afterEmit he
          (runChain_order_list_upload _ _ _ _ u n p (afterEmit_mem_cases he hm rfl rfl))
      · intro u i u2 n p hm1 hm2
        exact sublist_afterEmit he
          (runChain_order_delete_upload _ _ _ _ u i u2 n p
            (afterEmit_mem_cases he hm1 rfl rfl) (afterEmit_mem_cases he hm2 rfl rfl))
      · intro ids hp i
        rw [afterEmit_none s comp o he] at hp
        have hiff := runChain_pending (postResolveState s comp.hash)
          (getFiles s comp.assets) comp.collectors o ids hp i
        constructor
        · intro hi
          rcases hiff.mp hi with ⟨u, hu⟩
          refine ⟨u, ?_⟩
          rw [afterEmit_none s comp o he]
          exact List.mem_append.mpr (Or.inr hu)
        · rintro ⟨u, hu⟩
          exact hiff.mpr ⟨u, afterEmit_mem_cases he hu rfl rfl⟩

/-- C2 witness: the order facts of the amended claim at a concrete
overwrite run with one artifact and one file. -/
theorem c2_amended_witness :
    List.Sublist
        [Event.createSettled true,
         Event.listIssued "https://sentry.io/api/0/organizations/acme/releases/v1/files/"]
        (afterEmit stateOverwrite compOneAsset oracleOneArt).1 ∧
    List.Sublist
        [Event.deleteIssued "https://sentry.io/api/0/organizations/acme/releases/v1/files/7/" "7",
         Event.uploadIssued "https://sentry.io/api/0/organizations/acme/releases/v1/files/"
           "~/app.js" "A"]
        (afterEmit stateOverwrite compOneAsset oracleOneArt).1 :=
  ⟨(c2_amended_sequential_stages stateOverwrite compOneAsset oracleOneArt).1 _ (by decide),
   (c2_amended_sequential_stages stateOverwrite compOneAsset oracleOneArt).2.2.2.1
     _ _ _ _ _ (by decide) (by decide)⟩

/-! ### Claim C7 -/

/-- The serialized body the create-release request carries, expressed over
the pre-resolution state: a function-valued body applied to the resolved
version and the project slugs, a literal body unchanged. -/
def resolvedBodyVal (s : PluginState) (hash : String) : JsonVal :=
  match s.releaseBody with
  | .bfn g => g (resolvedVersion s hash).strVal (s.projectSlug.getD [])
  | .blit j => j

theorem postResolve_body_toVal (s : PluginState) (hash : String) :
    (postResolveState s hash).releaseBody.toVal = resolvedBodyVal s hash := by
  cases hb : s.releaseBody <;>
    simp [postResolveState, resolvedBody, resolvedBodyVal, BodyOpt.toVal, hb]

theorem runChain_createIssued_mem (s : PluginState) (files : List FileEntry)
    (init : Collectors) (o : ApiOracle) :
    Event.createIssued (sentryReleaseUrl s ++ "/") s.releaseBody.toVal ∈
      (runChain s files init o).1 := by
  cases hc : o.createResult with
  | error e => simp [runChain, hc]
  | ok uu =>
    cases hl : o.listResult with
    | error e => simp [runChain, hc, hl]
    | ok resp =>
      cases hd : deleteArtifacts s (sentryReleaseUrl s) resp with
      | error e => simp [runChain, hc, hl, hd]
      | ok p => cases hu : uploadAll o files <;> simp [runChain, hc, hl, hd, hu]

/-- A valid state whose `release` option is a function of the build hash
and whose body is the default body transform. -/
def stateFnVersion : PluginState :=
  ⟨BASE_SENTRY_URL, some "acme", some ["web"], some "k", .bfn DEFAULT_BODY_TRANSFORM,
   .vfn (fun h => "r-" ++ h), none, none, DEFAULT_TRANSFORM, false, false, false, false,
   DEFAULT_DELETE_REGEX⟩

/-- A state whose `release` option is a function but whose organization is
missing, so validation fails. -/
def stateFnVersionNoOrg : PluginState :=
  ⟨BASE_SENTRY_URL, none, some ["web"], some "k", .blit (.lit "body"),
   .vfn (fun h => "r-" ++ h), none, none, DEFAULT_TRANSFORM, false, false, false, false,
   DEFAULT_DELETE_REGEX⟩

/-- C7 counterexample: in a build invocation whose `release` option is a
function but whose organization is missing, validation fails first, so the
function is never applied (no resolution event) and the stored version
field still holds the function afterwards — the claim's unconditional "the
function is applied once and its result overwrites the stored version
field" fails for this invocation. -/
theorem c7_counterexample :
    stateFnVersionNoOrg.releaseVersion.isFn = true ∧
    (afterEmit stateFnVersionNoOrg compEmpty oracleOk).1.filter
      Event.isResolveVersion = [] ∧
    (afterEmit stateFnVersionNoOrg compEmpty oracleOk).2.1.releaseVersion.isFn = true :=
  ⟨rfl, rfl, rfl⟩

/-- C7 (amended): for every build invocation that passes required-options
validation: a function-valued `release` option is applied exactly once, to
the compilation's build hash, and the result overwrites the stored version
field; a function-valued `releaseBody` option is applied exactly once, to
the resolved version and the project slug sequence, and the result
overwrites the stored body field; the create-release request carries the
resolved body (which receives the resolved version when the body is a
function); every artifact-listing, artifact-deletion and upload URL of the
invocation uses the resolved version; and the stored version and body
fields still hold exactly the resolved values when the invocation ends. -/
theorem c7_amended_resolution (s : PluginState) (comp : Compilation) (o : ApiOracle)
    (hv : ensureRequiredOptions s = none) :
    (∀ f, s.releaseVersion = .vfn f →
      (afterEmit s comp o).1.filter Event.isResolveVersion =
          [.resolveVersion comp.hash] ∧
        (afterEmit s comp o).2.1.releaseVersion = .vstr (f comp.hash)) ∧
    (∀ g, s.releaseBody = .bfn g →
      (afterEmit s comp o).1.filter Event.isResolveBody =
          [.resolveBody (resolvedVersion s comp.hash).strVal (s.projectSlug.getD [])] ∧
        (afterEmit s comp o).2.1.releaseBody =
          .blit (g (resolvedVersion s comp.hash).strVal (s.projectSlug.getD []))) ∧
    ((afterEmit s comp o).1.filter Event.isCreate =
      [.createIssued (sentryReleaseUrl s ++ "/") (resolvedBodyVal s comp.hash)]) ∧
    (∀ u, Event.listIssued u ∈ (afterEmit s comp o).1 →
      u = sentryReleaseUrl s ++ "/" ++ (resolvedVersion s comp.hash).strVal ++ "/files/") ∧
    (∀ u n p, Event.uploadIssued u n p ∈ (afterEmit s comp o).1 →
      u = sentryReleaseUrl s ++ "/" ++ (resolvedVersion s comp.hash).strVal ++ "/files/") ∧
    (∀ u i, Event.deleteIssued u i ∈ (afterEmit s comp o).1 →
      u = sentryReleaseUrl s ++ "/" ++ (resolvedVersion s comp.hash).strVal ++
        "/files/" ++ i ++ "/") ∧
    (afterEmit s comp o).2.1.releaseVersion = resolvedVersion s comp.hash ∧
    (afterEmit s comp o).2.1.releaseBody =
      resolvedBody { s with releaseVersion := resolvedVersion s comp.hash } := by
  refine ⟨?_, ?_, ?_, ?_, ?_, ?_, ?_, ?_⟩
  · intro f hf
    constructor
    · rw [afterEmit_none s comp o hv, List.filter_append, List.filter_append]
      rw [versionEvents_vfn hf]
      rw [filter_bodyEvents_not _ Event.isResolveVersion rfl]
      rw [(runChain_no_resolve (postResolveState s comp.hash) (getFiles s comp.assets)
        comp.collectors o).1]
      simp [Event.isResolveVersion]
    · rw [afterEmit_none s comp o hv]
      show (postResolveState s comp.hash).releaseVersion = .vstr (f comp.hash)
      show resolvedVersion s comp.hash = .vstr (f comp.hash)
      simp [resolvedVersion, hf]
  · intro g hg
    have hbe : bodyEvents { s with releaseVersion := resolvedVersion s comp.hash } =
        [.resolveBody (resolvedVersion s comp.hash).strVal (s.projectSlug.getD [])] := by
      exact bodyEvents_bfn hg
    constructor
    · rw [afterEmit_none s comp o hv, List.filter_append, List.filter_append]
      rw [filter_versionEvents_not s comp.hash Event.isResolveBody rfl]
      rw [hbe]
      rw [(runChain_no_resolve (postResolveState s comp.hash) (getFiles s comp.assets)
        comp.collectors o).2]
      simp [Event.isResolveBody]
    · rw [afterEmit_none s comp o hv]
      show resolvedBody { s with releaseVersion := resolvedVersion s comp.hash } =
        .blit (g (resolvedVersion s comp.hash).strVal (s.projectSlug.getD []))
      simp [resolvedBody, hg]
  · rw [afterEmit_none s comp o hv, List.filter_append, List.filter_append]
    rw [filter_versionEvents_not s comp.hash Event.isCreate rfl]
    rw [filter_bodyEvents_not _ Event.isCreate rfl]
    rw [runChain_filter_create (postResolveState s comp.hash) (getFiles s comp.assets)
      comp.collectors o]
    rw [postResolve_body_toVal]
    simp only [List.nil_append]
    rfl
  · intro u hm
    exact runChain_listIssued_eq (postResolveState s comp.hash) (getFiles s comp.assets)
      comp.collectors o u (afterEmit_mem_cases hv hm rfl rfl)
  · intro u n p hm
    exact (runChain_uploadIssued_eq (postResolveState s comp.hash) (getFiles s comp.assets)
      comp.collectors o u n p (afterEmit_mem_cases hv hm rfl rfl)).1
  · intro u i hm
    exact runChain_deleteIssued_eq (postResolveState s comp.hash) (getFiles s comp.assets)
      comp.collectors o u i (afterEmit_mem_cases hv hm rfl rfl)
  · rw [afterEmit_none s comp o hv]
    rfl
  · rw [afterEmit_none s comp o hv]
    rfl

/-- C7 witness: a function-valued version applied to the build hash once,
and the overwritten field, at a concrete configuration. -/
theorem c7_amended_witness :
    ensureRequiredOptions stateFnVersion = none ∧
    (afterEmit stateFnVersion compEmpty oracleOk).1.filter Event.isResolveVersion =
      [.resolveVersion compEmpty.hash] ∧
    (afterEmit stateFnVersion compEmpty oracleOk).2.1.releaseVersion =
      .vstr ((fun h => "r-" ++ h) compEmpty.hash) :=
  ⟨by decide,
   ((c7_amended_resolution stateFnVersion compEmpty oracleOk (by decide)).1
     (fun h => "r-" ++ h) rfl).1,
   ((c7_amended_resolution stateFnVersion compEmpty oracleOk (by decide)).1
     (fun h => "r-" ++ h) rfl).2⟩

/-! ### Claim C10 -/

/-- C10: when the same instance handles a second `after-emit` invocation
after a first one resolved a function-valued `release` option, the function
is not invoked again (the second trace has no resolution event): the
version string resolved from the first build's hash — which overwrote the
function in the shared instance field — is reused verbatim for the second
build's release creation and for every artifact/upload URL, and it remains
stored afterwards. -/
theorem c10_version_reuse (s0 : PluginState) (ca cb : Compilation)
    (oa ob : ApiOracle) (f : String → String)
    (hf : s0.releaseVersion = .vfn f)
    (hv : ensureRequiredOptions s0 = none)
    (hne : f ca.hash ≠ "") :
    (afterEmit s0 ca oa).2.1.releaseVersion = .vstr (f ca.hash) ∧
    (afterEmit (afterEmit s0 ca oa).2.1 cb ob).1.filter Event.isResolveVersion = [] ∧
    (afterEmit (afterEmit s0 ca oa).2.1 cb ob).2.1.releaseVersion = .vstr (f ca.hash) ∧
    (∃ b, Event.createIssued (sentryReleaseUrl s0 ++ "/") b ∈
      (afterEmit (afterEmit s0 ca oa).2.1 cb ob).1) ∧
    (∀ u, Event.listIssued u ∈ (afterEmit (afterEmit s0 ca oa).2.1 cb ob).1 →
      u = sentryReleaseUrl s0 ++ "/" ++ f ca.hash ++ "/files/") ∧
    (∀ u n p, Event.uploadIssued u n p ∈ (afterEmit (afterEmit s0 ca oa).2.1 cb ob).1 →
      u = sentryReleaseUrl s0 ++ "/" ++ f ca.hash ++ "/files/") ∧
    (∀ u i, Event.deleteIssued u i ∈ (afterEmit (afterEmit s0 ca oa).2.1 cb ob).1 →
      u = sentryReleaseUrl s0 ++ "/" ++ f ca.hash ++ "/files/" ++ i ++ "/") := by
  have hver1 : (postResolveState s0 ca.hash).releaseVersion = .vstr (f ca.hash) := by
    show resolvedVersion s0 ca.hash = .vstr (f ca.hash)
    simp [resolvedVersion, hf]
  have hv2 : ensureRequiredOptions (postResolveState s0 ca.hash) = none := by
    rw [ensure_none_iff] at hv ⊢
    refine ⟨hv.1, hv.2.1, hv.2.2.1, ?_⟩
    rw [hver1]
    simp [VersionOpt.truthy, hne]
  have hver2 : (postResolveState (postResolveState s0 ca.hash) cb.hash).releaseVersion =
      .vstr (f ca.hash) := by
    show resolvedVersion (postResolveState s0 ca.hash) cb.hash = .vstr (f ca.hash)
    simp [resolvedVersion, hver1]
  have hstr : (postResolveState (postResolveState s0 ca.hash) cb.hash).releaseVersion.strVal =
      f ca.hash := by
    rw [hver2]
    rfl
  have hs1 : (afterEmit s0 ca oa).2.1 = postResolveState s0 ca.hash := by
    rw [afterEmit_none s0 ca oa hv]
  refine ⟨?_, ?_, ?_, ?_, ?_, ?_, ?_⟩
  · rw [hs1]
    exact hver1
  · rw [hs1, afterEmit_none _ cb ob hv2, List.filter_append, List.filter_append]
    have hvev : versionEvents (postResolveState s0 ca.hash) cb.hash = [] := by
      simp [versionEvents, hver1]
    rw [hvev]
    rw [filter_bodyEvents_not _ Event.isResolveVersion rfl]
    rw [(runChain_no_resolve (postResolveState (postResolveState s0 ca.hash) cb.hash)
      (getFiles (postResolveState s0 ca.hash) cb.assets) cb.collectors ob).1]
    simp
  · rw [hs1, afterEmit_none _ cb ob hv2]
    exact hver2
  · rw [hs1, afterEmit_none _ cb ob hv2]
    exact ⟨(postResolveState (postResolveState s0 ca.hash) cb.hash).releaseBody.toVal,
      List.mem_append.mpr (Or.inr (runChain_createIssued_mem _ _ _ _))⟩
  · intro u hm
    rw [hs1] at hm
    have hm2 := afterEmit_mem_cases hv2 hm rfl rfl
    have hx := runChain_listIssued_eq _ _ _ _ u hm2
    rw [hx, hstr]
    rfl
  · intro u n p hm
    rw [hs1] at hm
    have hm2 := afterEmit_mem_cases hv2 hm rfl rfl
    have hx := (runChain_uploadIssued_eq _ _ _ _ u n p hm2).1
    rw [hx, hstr]
    rfl
  · intro u i hm
    rw [hs1] at hm
    have hm2 := afterEmit_mem_cases hv2 hm rfl rfl
    have hx := runChain_deleteIssued_eq _ _ _ _ u i hm2
    rw [hx, hstr]
    rfl

/-- A second compilation handled by the same instance. -/
def compSecond : Compilation := ⟨[], "h2", ⟨[], []⟩⟩

/-- C10 witness: consecutive invocations of one instance; the second
invocation performs no version resolution and keeps the version resolved
from the first build's hash. -/
theorem c10_witness :
    ensureRequiredOptions stateFnVersion = none ∧
    (afterEmit stateFnVersion compEmpty oracleOk).2.1.releaseVersion =
      .vstr ((fun h => "r-" ++ h) compEmpty.hash) ∧
    (afterEmit (afterEmit stateFnVersion compEmpty oracleOk).2.1 compSecond
      oracleOk).1.filter Event.isResolveVersion = [] ∧
    (afterEmit (afterEmit stateFnVersion compEmpty oracleOk).2.1 compSecond
      oracleOk).2.1.releaseVersion = .vstr ((fun h => "r-" ++ h) compEmpty.hash) :=
  ⟨by decide,
   (c10_version_reuse stateFnVersion compEmpty compSecond oracleOk oracleOk
     (fun h => "r-" ++ h) rfl (by decide) (by decide)).1,
   (c10_version_reuse stateFnVersion compEmpty compSecond oracleOk oracleOk
     (fun h => "r-" ++ h) rfl (by decide) (by decide)).2.1,
   (c10_version_reuse stateFnVersion compEmpty compSecond oracleOk oracleOk
     (fun h => "r-" ++ h) rfl (by decide) (by decide)).2.2.1⟩

end WebpackSentryPlugin
